import Mathlib

/-!
Verification development for the restify HTTP server core
(`lib/server.js`, given as `src/unnamed/part_000`).

The JavaScript source is shallowly embedded: each relevant function of
`server.js` becomes a Lean definition over explicit state records.  Code of
the repository that is not part of the provided sources (`route.js`,
`request.js`, `response.js`) is either kept abstract (routes carry their
match predicates as function fields, exactly the way `server.js` treats
them: it only ever calls `matchesUrl` / `matchesMethod` / `matchesVersion`)
or modelled from the specification, with a doc comment saying so.
-/

namespace Restify

/-- A JavaScript value, as far as the server core can observe one: handler
chains may hold arbitrary values, and `argsToChain` inspects them with
`typeof` and strict equality. Functions are identified by an opaque id. -/
inductive JSVal where
  | func (id : Nat)
  | str (s : String)
  | num (n : Int)
  | bool (b : Bool)
  | nullV
  | undef
deriving DecidableEq, Repr

/-- JavaScript's `typeof` operator on the embedded values. Note
`typeof null` is `"object"`. -/
def typeofStr : JSVal → String
  | .func _ => "function"
  | .str _ => "string"
  | .num _ => "number"
  | .bool _ => "boolean"
  | .nullV => "object"
  | .undef => "undefined"

/-- JavaScript truthiness of a string: every non-empty string is truthy. -/
def jsTruthyStr (s : String) : Bool := s ≠ ""

/-- JavaScript's `!` applied to a string value. -/
def jsNotStr (s : String) : Bool := ! jsTruthyStr s

/-- JavaScript strict equality `===` on the embedded values: values of
different runtime types are never strictly equal. -/
def strictEq : JSVal → JSVal → Bool
  | .func a, .func b => a == b
  | .str a, .str b => a == b
  | .num a, .num b => a == b
  | .bool a, .bool b => a == b
  | .nullV, .nullV => true
  | .undef, .undef => true
  | _, _ => false

/-- An argument to `use` / `pre` / route registration: a value or a
(possibly nested) array of arguments, mirroring the JavaScript call sites
that accept "any combination of functions or array of functions". -/
inductive Arg where
  | leaf (v : JSVal)
  | arr (xs : List Arg)
deriving Repr

mutual
/-- Plain flattening of one argument: the leaves, in order. -/
def argFlatten : Arg → List JSVal
  | .leaf v => [v]
  | .arr xs => argFlattenList xs

/-- Plain flattening of an argument list: the leaves, in order. -/
def argFlattenList : List Arg → List JSVal
  | [] => []
  | a :: rest => argFlatten a ++ argFlattenList rest
end

mutual
/-- The body of `process` inside `argsToChain` (`server.js` lines 38-47),
on one element: `if (Array.isArray(h)) return process(h);
if (!typeof(h) === 'function') throw new TypeError('handlers must be
Functions'); return chain.push(h);`.  The guard is embedded exactly as
written: JavaScript first evaluates `!typeof(h)` (a boolean) and then
compares that boolean to the string `'function'` with `===`. -/
def processArg : Arg → Except String (List JSVal)
  | .arr xs => processArgList xs
  | .leaf h =>
    if strictEq (.bool (jsNotStr (typeofStr h))) (.str "function") then
      .error "handlers must be Functions"
    else
      .ok [h]

/-- `process` mapped over a handler list (`handlers.forEach`), collecting
the pushed elements in order; a thrown TypeError aborts the walk. -/
def processArgList : List Arg → Except String (List JSVal)
  | [] => .ok []
  | a :: rest => do
    let c ← processArg a
    let cs ← processArgList rest
    .ok (c ++ cs)
end

/-- `argsToChain` (`server.js` lines 29-51): flattens the arguments into a
single handler chain.  The initial `if (args.length < 0) throw new
TypeError('handler (Function) required')` is embedded as written; an array
length is never negative. -/
def argsToChain (args : List Arg) : Except String (List JSVal) :=
  if (args.length : Int) < 0 then
    .error "handler (Function) required"
  else
    processArgList args

mutual
theorem processArg_eq_ok (a : Arg) : processArg a = .ok (argFlatten a) := by
  cases a with
  | leaf h =>
    cases h <;>
      simp [processArg, argFlatten, strictEq, jsNotStr, jsTruthyStr, typeofStr]
  | arr xs =>
    rw [processArg, argFlatten, processArgList_eq_ok xs]

theorem processArgList_eq_ok (xs : List Arg) :
    processArgList xs = .ok (argFlattenList xs) := by
  cases xs with
  | nil => rfl
  | cons a rest =>
    rw [processArgList, argFlattenList, processArg_eq_ok a,
      processArgList_eq_ok rest]
    rfl
end

theorem argsToChain_eq_ok (args : List Arg) :
    argsToChain args = .ok (argFlattenList args) := by
  have h : ¬ ((args.length : Int) < 0) := by
    exact not_lt.mpr (Int.natCast_nonneg _)
  simp [argsToChain, h, processArgList_eq_ok]

/-- Path parameters extracted by a URL match. -/
abbrev Params := List (String × String)

/-- The error objects the server core constructs (`errors.js` kinds used in
`server.js`), plus an opaque error value signalled by a handler. -/
inductive ErrVal where
  | resourceNotFound (msg : String)
  | badMethod (msg : String)
  | invalidVersion (msg : String)
  | handler (e : JSVal)
deriving DecidableEq, Repr

/-- What a response has written: a bare status code (`res.send(200)`) or an
error object (`res.send(err)`). -/
inductive Sent where
  | status (code : Nat)
  | err (e : ErrVal)
deriving DecidableEq, Repr

/-- The request state the server core reads and writes: raw method and url,
the accept-version list derived from the request header, and the `params`
field, which is absent until `_findRoute` assigns it. -/
structure Req where
  method : String
  url : String
  versions : List String
  params : Option Params
deriving DecidableEq, Repr

/-- The response state the server core writes: headers, the
`methods` / `versions` / `version` fields `_findRoute` assigns, the fields
`_request` sets on a successful match, and what was sent. -/
structure Res where
  headers : List (String × String)
  methods : List String
  versions : List String
  version : Option String
  serverName : Option String
  defaultHeadersApplied : Bool
  sent : Option Sent
deriving DecidableEq, Repr

/-- Set (upsert) a response header, as node's `setHeader` does. -/
def setHeaderList : List (String × String) → String → String → List (String × String)
  | [], k, v => [(k, v)]
  | (k', v') :: rest, k, v =>
    if k' == k then (k, v) :: rest else (k', v') :: setHeaderList rest k v

/-- `res.header(k, v)`. -/
def Res.setHeader (res : Res) (k v : String) : Res :=
  { res with headers := setHeaderList res.headers k v }

/-- `res.send(x)`. -/
def Res.send (res : Res) (s : Sent) : Res :=
  { res with sent := some s }

/-- `default404Handler` (`server.js` lines 62-64). -/
def default404Handler (req : Req) (res : Res) : Res :=
  res.send (.err (.resourceNotFound (req.url ++ " not found")))

/-- `default405Handler` (`server.js` lines 67-75): always sets the `Allow`
header from the accumulated method list; an OPTIONS request gets a bare
200, any other method gets a BadMethodError. -/
def default405Handler (req : Req) (res : Res) (methods : List String) : Res :=
  let res := res.setHeader "Allow" (String.intercalate ", " methods)
  if req.method == "OPTIONS" then
    res.send (.status 200)
  else
    res.send (.err (.badMethod (req.url ++ " does not support " ++ req.method)))

/-- `defaultBadVersionHandler` (`server.js` lines 78-83). -/
def defaultBadVersionHandler (req : Req) (res : Res) (versions : List String) : Res :=
  res.send (.err (.invalidVersion (req.method ++ " " ++ req.url ++
    " supports versions: " ++ String.intercalate ", " versions)))

/-- A route, as `server.js` observes one.  `route.js` is not among the
provided sources, so the three match predicates are opaque function fields:
`server.js` only ever invokes them (`matchesUrl` on an object carrying a
url, `matchesMethod` on the request method, `matchesVersion` on the
request's accept-version list).  `methods` is the mutable set of methods
`_addRoute` back-patches for 405 reporting; `version` is the value
`_findRoute` reads for the acceptable-versions accumulator. -/
structure Route where
  name : String
  method : String
  version : Option String
  methods : List String
  chain : List JSVal
  matchesUrlP : String → Option Params
  matchesMethodP : String → Bool
  matchesVersionP : List String → Bool

/-- Modelled from the spec: `Route.prototype.use` lives in `route.js`, which
is not among the provided sources. `Server.prototype.use` invokes it on
every already-registered route with the newly added global handlers; per
the spec (§4.4, §9) "later global registrations do not retroactively affect
already-created routes" and each route's effective chain is fixed at
registration time, so the call is modelled as leaving the route's chain
(and the rest of the route) unchanged. -/
def Route.use (r : Route) (_handlers : List JSVal) : Route := r

/-- Per-event user listener counts (`this.listeners(event).length` for the
three fallback events).  These count listeners registered by the user;
a default responder installed by `_findRoute` via `once` fires on the very
emit that follows and is then removed by the emitter, so it does not
persist in these counts. -/
structure Listeners where
  versionNotAllowed : Nat
  methodNotAllowed : Nat
  notFound : Nat
deriving DecidableEq, Repr

/-- The server state `server.js` maintains that the claims concern: the
global chain, the pre-routing chain, the ordered route table, the formatter
keys (in registration order), the server-wide default version, the server
name, and the fallback-event listener counts. -/
structure Server where
  chain : List JSVal
  preChain : List JSVal
  routes : List Route
  formatters : List String
  version : Option String
  name : String
  listeners : Listeners

/-- A fallback outcome emitted when no route fully matches, carrying its
accumulated set. -/
inductive Outcome where
  | versionNotAllowed (versions : List String)
  | methodNotAllowed (methods : List String)
  | notFound
deriving DecidableEq, Repr

/-- The result of `_findRoute`: the states it threads, the resolved route
(if any), and, when no route fully matched, the emitted outcome together
with whether the default responder was installed for it (because no user
listener existed). -/
structure FindResult where
  server : Server
  req : Req
  res : Res
  route : Option Route
  emitted : Option (Outcome × Bool)

/-- The scan loop of `_findRoute` (`server.js` lines 465-482): walk the
routes in order; on a url match test method then version, breaking at the
first route passing all three; a method miss records the route's method
into the `methods` accumulator if absent, a version miss records the
route's version into the `versions` accumulator if present and absent. -/
def scanRoutes (req : Req) : List Route → List String → List String →
    Option (Route × Params) × List String × List String
  | [], methods, versions => (none, methods, versions)
  | r :: rest, methods, versions =>
    match r.matchesUrlP req.url with
    | none => scanRoutes req rest methods versions
    | some params =>
      if r.matchesMethodP req.method then
        if r.matchesVersionP req.versions then
          (some (r, params), methods, versions)
        else
          scanRoutes req rest methods
            (match r.version with
             | some v => if versions.contains v then versions else versions ++ [v]
             | none => versions)
      else
        scanRoutes req rest
          (if methods.contains r.method then methods else methods ++ [r.method])
          versions

/-- `_findRoute` (`server.js` lines 456-511).  On a full match the winning
route's params are bound into the request and the route's `methods` /
`version` are copied onto the response.  Otherwise the accumulators are
copied onto the response and exactly one fallback outcome is emitted, by
the precedence versions-mismatch, then methods-mismatch, then not-found;
when the corresponding user listener count is zero the default responder is
installed with `once` and, firing on that same emit, applies its effect to
the response (a user listener's effect is outside the model, so the
response is left as assigned). -/
def Server.findRoute (s : Server) (req : Req) (res : Res) : FindResult :=
  match scanRoutes req s.routes [] [] with
  | (some (r, params), _, _) =>
    { server := s
      req := { req with params := some params }
      res := { res with methods := r.methods, version := r.version }
      route := some r
      emitted := none }
  | (none, methods, versions) =>
    let res1 := { res with methods := methods, versions := versions }
    if versions ≠ [] then
      let installed := s.listeners.versionNotAllowed == 0
      { server := s
        req := req
        res := if installed then defaultBadVersionHandler req res1 versions else res1
        route := none
        emitted := some (.versionNotAllowed versions, installed) }
    else if methods ≠ [] then
      let installed := s.listeners.methodNotAllowed == 0
      { server := s
        req := req
        res := if installed then default405Handler req res1 methods else res1
        route := none
        emitted := some (.methodNotAllowed methods, installed) }
    else
      let installed := s.listeners.notFound == 0
      { server := s
        req := req
        res := if installed then default404Handler req res1 else res1
        route := none
        emitted := some (.notFound, installed) }

/-- `use` (`server.js` lines 338-353): flatten the arguments; if the
resulting chain is non-empty, push its handlers onto the server's global
chain and invoke `use` on every already-registered route with it. -/
def Server.use (s : Server) (args : List Arg) : Except String Server := do
  let chain ← argsToChain args
  if chain ≠ [] then
    pure { s with
      chain := s.chain ++ chain
      routes := s.routes.map (fun r => r.use chain) }
  else
    pure s

/-- `pre` (`server.js` lines 361-367): flatten the arguments and push them
onto the pre-routing chain. -/
def Server.pre (s : Server) (args : List Arg) : Except String Server := do
  let chain ← argsToChain args
  pure { s with preChain := s.preChain ++ chain }

/-- Modelled from the spec: `Route.prototype.matchesMethod` lives in
`route.js`, which is not among the provided sources.  §8's testable
property requires an OPTIONS request against GET/POST-only routes to take
the method-mismatch path, so method matching is exact equality of the
request method with the route's method. -/
def specMatchesMethod (routeMethod reqMethod : String) : Bool :=
  reqMethod == routeMethod

/-- Modelled from the spec: `Route.prototype.matchesVersion` lives in
`route.js`, which is not among the provided sources.  §4.2: a route with no
version constraint matches any version; otherwise at least one requested
version must fall in the constraint (exact-value match; the range mode is
not exercised by any claim and is not modelled). -/
def specMatchesVersion (constraint : Option String) (reqVersions : List String) : Bool :=
  match constraint with
  | none => true
  | some v => reqVersions.contains v

/-- The registration options `_addRoute` reads (`options.path || options.url`
collapsed into one url field, plus the optional name and version). -/
structure RouteOptions where
  url : String
  name : Option String
  version : Option String

/-- `_addRoute` (`server.js` lines 373-410): snapshot the global chain,
append the flattened registration handlers, build a Route (the `Route`
constructor lives in `route.js`, absent from the provided sources, so the
compiled URL matcher is supplied by the `compileUrl` argument, the
method/version predicates are the spec-modelled ones, the name defaults to
an auto-generated id, and the route's `methods` set starts from its own
method); then back-patch the `methods` set of every existing route whose
matcher accepts the new url, and append the new route to the table. -/
def Server._addRoute (compileUrl : String → String → Option Params)
    (s : Server) (method : String) (opts : RouteOptions) (handlers : List Arg) :
    Except String (Server × Route) := do
  let flat ← argsToChain handlers
  let chain := s.chain ++ flat
  let version := opts.version <|> s.version
  let route : Route :=
    { name := opts.name.getD (method ++ " " ++ opts.url)
      method := method
      version := version
      methods := [method]
      chain := chain
      matchesUrlP := compileUrl opts.url
      matchesMethodP := specMatchesMethod method
      matchesVersionP := specMatchesVersion version }
  let routes1 := s.routes.map (fun r =>
    if (r.matchesUrlP opts.url).isSome then
      if r.methods.contains method then r
      else { r with methods := r.methods ++ [method] }
    else r)
  pure ({ s with routes := routes1 ++ [route] }, route)

/-- The search-and-splice loop of `rm`: delete the first route whose name
matches; `none` when no route matches. -/
def rmNamed (name : String) : List Route → Option (List Route)
  | [] => none
  | r :: rest =>
    if r.name == name then some rest
    else (rmNamed name rest).map (fun rs => r :: rs)

/-- `rm` (`server.js` lines 315-327), by-name form: scan for the first
route whose name equals the argument, splice it out and return true;
return false when none matches.  (The other form compares the argument to
the route object itself with `===`, JavaScript reference identity, which
has no structural counterpart and is not modelled.) -/
def Server.rm (s : Server) (name : String) : Bool × Server :=
  match rmNamed name s.routes with
  | some rs => (true, { s with routes := rs })
  | none => (false, s)

/-- The `acceptable` getter (`server.js` lines 165-173): start from the
formatter keys (in their own order) and push each element of
`Response.ACCEPTABLE` that is not already present.  `Response.ACCEPTABLE`
lives in `response.js`, absent from the provided sources; it is abstracted
as the `builtins` argument. -/
def acceptableList (formatterKeys builtins : List String) : List String :=
  builtins.foldl
    (fun accept a => if accept.contains a then accept else accept ++ [a])
    formatterKeys

/-- The effect of one opaque pre-chain handler (spec §1 treats middleware
internals as external collaborators): it may rewrite the request and
response and either continue (`none`) or signal an error value (`some`). -/
abbrev PreInterp := JSVal → Req → Res → Req × Res × Option JSVal

/-- `async.series` over the pre-chain tasks built in `_request`
(`server.js` lines 430-441): run the handlers in order, stopping at the
first one that signals an error; the trailing always-continue task added at
line 437 has no observable effect and is elided. -/
def runSeries (interp : PreInterp) :
    List JSVal → Req → Res → Req × Res × Option JSVal
  | [], req, res => (req, res, none)
  | h :: rest, req, res =>
    match interp h req res with
    | (req1, res1, some e) => (req1, res1, some e)
    | (req1, res1, none) => runSeries interp rest req1 res1

/-- The result of `_request`: the states it threads and, when a route fully
matched, the route whose `run` was invoked (`route.run` lives in
`route.js`, absent from the provided sources, so the invocation is
recorded rather than interpreted). -/
structure DispatchOut where
  server : Server
  req : Req
  res : Res
  ranRoute : Option Route

/-- `_request` (`server.js` lines 413-453): run the pre-chain in series; if
it signals an error, send that error as the response and stop (no routing).
Otherwise resolve a route via `_findRoute`; when none resolves the fallback
emission has already handled the response; when one resolves, set the
server name and default headers on the response and run the route. -/
def Server._request (interp : PreInterp) (s : Server) (req : Req) (res : Res) :
    DispatchOut :=
  match runSeries interp s.preChain req res with
  | (req1, res1, some err) =>
    { server := s, req := req1, res := res1.send (.err (.handler err)),
      ranRoute := none }
  | (req1, res1, none) =>
    let fr := s.findRoute req1 res1
    match fr.route with
    | none => { server := fr.server, req := fr.req, res := fr.res, ranRoute := none }
    | some r =>
      { server := fr.server
        req := fr.req
        res := { fr.res with serverName := some s.name, defaultHeadersApplied := true }
        ranRoute := some r }

/-! ### Specification-side definitions -/

/-- A route fully matches a request when its path, method and version
predicates all succeed (spec §4.3 step 4). -/
def routeFullMatch (req : Req) (r : Route) : Bool :=
  (r.matchesUrlP req.url).isSome && r.matchesMethodP req.method &&
    r.matchesVersionP req.versions

/-- The parameters a route's matcher extracts from the request url. -/
def matchedParams (req : Req) (r : Route) : Params :=
  (r.matchesUrlP req.url).getD []

/-- The allowed-methods accumulator of spec §4.3 step 2: the methods of the
path-matching, method-mismatching routes, in scan order, deduplicated. -/
def allowedMethodsAcc (req : Req) : List Route → List String → List String
  | [], acc => acc
  | r :: rest, acc =>
    if (r.matchesUrlP req.url).isSome && !(r.matchesMethodP req.method) then
      allowedMethodsAcc req rest
        (if acc.contains r.method then acc else acc ++ [r.method])
    else
      allowedMethodsAcc req rest acc

/-- The acceptable-versions accumulator of spec §4.3 step 3: the declared
versions of the path-and-method-matching, version-mismatching routes, in
scan order, deduplicated. -/
def acceptableVersionsAcc (req : Req) : List Route → List String → List String
  | [], acc => acc
  | r :: rest, acc =>
    if (r.matchesUrlP req.url).isSome && r.matchesMethodP req.method &&
        !(r.matchesVersionP req.versions) then
      match r.version with
      | some v =>
        acceptableVersionsAcc req rest
          (if acc.contains v then acc else acc ++ [v])
      | none => acceptableVersionsAcc req rest acc
    else
      acceptableVersionsAcc req rest acc

/-- Spec §6's description of the acceptable-types list, written from the
spec's words: the built-in fallback types that are not already present,
first occurrences only, in order, to be appended after the server-declared
formatter keys. -/
def specFallbackTail (present : List String) : List String → List String
  | [] => []
  | a :: rest =>
    if present.contains a then specFallbackTail present rest
    else a :: specFallbackTail (present ++ [a]) rest

/-- Read a response header. -/
def Res.headerOf (res : Res) (k : String) : Option String :=
  res.headers.lookup k

/-! ### Concrete fixtures (used by witnesses and the concrete claims) -/

/-- A fresh response. -/
def res0 : Res :=
  { headers := [], methods := [], versions := [], version := none,
    serverName := none, defaultHeadersApplied := false, sent := none }

/-- A fixture route: `GET /x`, literal-path matcher, exact method match,
no version constraint. -/
def routeGetX : Route :=
  { name := "getx", method := "GET", version := none, methods := ["GET"]
    chain := []
    matchesUrlP := fun u => if u == "/x" then some [] else none
    matchesMethodP := fun m => m == "GET"
    matchesVersionP := fun _ => true }

/-- A fixture route: `POST /x`. -/
def routePostX : Route :=
  { routeGetX with
    name := "postx", method := "POST", methods := ["POST"]
    matchesMethodP := fun m => m == "POST" }

/-- A server over a given route table, with no user fallback listeners. -/
def mkServer (rs : List Route) : Server :=
  { chain := [], preChain := [], routes := rs, formatters := [],
    version := none, name := "restify", listeners := ⟨0, 0, 0⟩ }

/-- A `DELETE /x` request. -/
def reqDelX : Req :=
  { method := "DELETE", url := "/x", versions := [], params := none }

/-- A `GET /x` request. -/
def reqGetX : Req :=
  { method := "GET", url := "/x", versions := [], params := none }

/-- An `OPTIONS /x` request. -/
def reqOptionsX : Req :=
  { method := "OPTIONS", url := "/x", versions := [], params := none }

/-- A literal-only URL compiler for witnesses: the compiled matcher accepts
exactly the pattern string and extracts no parameters. -/
def cuLit : String → String → Option Params :=
  fun pat u => if u == pat then some [] else none

/-- A pre-chain interpretation for witnesses: handler 7 signals the error
value `"boom"`, every other handler continues untouched. -/
def wPreErr : PreInterp := fun h req res =>
  match h with
  | .func 7 => (req, res, some (.str "boom"))
  | _ => (req, res, none)

/-- A server whose pre-chain consists of the erroring handler 7. -/
def sPreErr : Server :=
  { mkServer [routeGetX] with preChain := [.func 7] }

/-! ### Characterization of the scan loop -/

theorem scanRoutes_fst (req : Req) :
    ∀ (rs : List Route) (ms vs : List String),
      (scanRoutes req rs ms vs).1 =
        (rs.find? (routeFullMatch req)).map (fun r => (r, matchedParams req r)) := by
  intro rs
  induction rs with
  | nil => intro ms vs; simp [scanRoutes]
  | cons r rest ih =>
    intro ms vs
    rcases hurl : r.matchesUrlP req.url with _ | params
    · have hfm : routeFullMatch req r = false := by
        simp [routeFullMatch, hurl]
      simp [scanRoutes, hurl, List.find?, hfm, ih]
    · by_cases hm : r.matchesMethodP req.method
      · by_cases hv : r.matchesVersionP req.versions
        · have hfm : routeFullMatch req r = true := by
            simp [routeFullMatch, hurl, hm, hv]
          simp [scanRoutes, hurl, hm, hv, List.find?, hfm, matchedParams]
        · have hfm : routeFullMatch req r = false := by
            simp [routeFullMatch, hurl, hm, hv]
          simp [scanRoutes, hurl, hm, hv, List.find?, hfm, ih]
      · have hfm : routeFullMatch req r = false := by
          simp [routeFullMatch, hurl, hm]
        simp [scanRoutes, hurl, hm, List.find?, hfm, ih]

theorem scanRoutes_no_match (req : Req) :
    ∀ (rs : List Route) (ms vs : List String),
      rs.find? (routeFullMatch req) = none →
      scanRoutes req rs ms vs =
        (none, allowedMethodsAcc req rs ms, acceptableVersionsAcc req rs vs) := by
  intro rs
  induction rs with
  | nil => intro ms vs _; simp [scanRoutes, allowedMethodsAcc, acceptableVersionsAcc]
  | cons r rest ih =>
    intro ms vs hnone
    have hall := List.find?_eq_none.mp hnone
    have hfm : routeFullMatch req r = false := by
      simpa using hall r (List.mem_cons_self r rest)
    have hrest : rest.find? (routeFullMatch req) = none := by
      exact List.find?_eq_none.mpr (fun x hx => hall x (List.mem_cons_of_mem r hx))
    rcases hurl : r.matchesUrlP req.url with _ | params
    · simp [scanRoutes, hurl, allowedMethodsAcc, acceptableVersionsAcc,
        ih _ _ hrest]
    · by_cases hm : r.matchesMethodP req.method
      · by_cases hv : r.matchesVersionP req.versions
        · exfalso
          have : routeFullMatch req r = true := by
            simp [routeFullMatch, hurl, hm, hv]
          rw [this] at hfm
          exact absurd hfm (by simp)
        · rcases hver : r.version with _ | v <;>
            simp [scanRoutes, hurl, hm, hv, hver, allowedMethodsAcc,
              acceptableVersionsAcc, ih _ _ hrest]
      · simp [scanRoutes, hurl, hm, allowedMethodsAcc, acceptableVersionsAcc,
          ih _ _ hrest]

/-! ### Claim theorems -/

/-- C1: for every route table and request, `_findRoute` scans the routes in
registration order and resolves to the first route whose path, method and
version predicates all succeed (`List.find?` of the full-match predicate);
in particular no later-registered route is ever chosen over an
earlier-registered fully-matching one. -/
theorem c1_resolution_is_first_full_match (s : Server) (req : Req) (res : Res) :
    (s.findRoute req res).route = s.routes.find? (routeFullMatch req) := by
  have h1 := scanRoutes_fst req s.routes [] []
  rcases hscan : scanRoutes req s.routes [] [] with ⟨o, ms, vs⟩
  rw [hscan] at h1
  dsimp only at h1
  rcases o with _ | ⟨r, params⟩
  · have hfind : s.routes.find? (routeFullMatch req) = none := by
      rcases hf : s.routes.find? (routeFullMatch req) with _ | r1
      · rfl
      · rw [hf] at h1; simp at h1
    rw [hfind]
    simp only [Server.findRoute, hscan]
    split_ifs <;> rfl
  · rcases hf : s.routes.find? (routeFullMatch req) with _ | r1
    · rw [hf] at h1; simp at h1
    · rw [hf] at h1
      simp only [Option.map_some'] at h1
      have hr : r = r1 := by
        have := congrArg (Option.map Prod.fst) h1
        simpa using this
      simp only [Server.findRoute, hscan]
      simpa using hr

/-- C2: on every request on which no route fully matches, `_findRoute`
resolves no route and emits exactly one fallback outcome, chosen by fixed
precedence: a version-mismatch outcome with the accumulated
acceptable-versions set when that set is non-empty, else a method-mismatch
outcome with the accumulated allowed-methods set when that set is
non-empty, else a not-found outcome — each delivered through its event
path, with the default responder installed exactly when no user listener
exists for the event. -/
theorem c2_fallback_precedence (s : Server) (req : Req) (res : Res)
    (h : s.routes.find? (routeFullMatch req) = none) :
    (s.findRoute req res).route = none ∧
    (s.findRoute req res).emitted = some (
      if acceptableVersionsAcc req s.routes [] ≠ [] then
        (Outcome.versionNotAllowed (acceptableVersionsAcc req s.routes []),
          s.listeners.versionNotAllowed == 0)
      else if allowedMethodsAcc req s.routes [] ≠ [] then
        (Outcome.methodNotAllowed (allowedMethodsAcc req s.routes []),
          s.listeners.methodNotAllowed == 0)
      else
        (Outcome.notFound, s.listeners.notFound == 0)) := by
  have hscan := scanRoutes_no_match req s.routes [] [] h
  constructor
  · simp only [Server.findRoute, hscan]
    split_ifs <;> rfl
  · simp only [Server.findRoute, hscan]
    split_ifs <;> rfl

/-- C2 witness: a `DELETE /x` request against a table of `GET /x` and
`POST /x` fully matches no route; the emitted outcome is the
method-mismatch one carrying `["GET", "POST"]`, with the default responder
installed. -/
theorem c2_fallback_precedence_witness :
    (mkServer [routeGetX, routePostX]).routes.find? (routeFullMatch reqDelX) = none ∧
    ((mkServer [routeGetX, routePostX]).findRoute reqDelX res0).emitted =
      some (Outcome.methodNotAllowed ["GET", "POST"], true) := by
  refine ⟨rfl, ?_⟩
  have h := (c2_fallback_precedence (mkServer [routeGetX, routePostX]) reqDelX res0 rfl).2
  exact h.trans rfl

/-- C3: a route registered by `_addRoute` gets as its chain the server's
global chain as of that moment followed by the flattened handlers passed at
registration; a later `use` call extends the server's global chain (for
future registrations) but changes no already-registered route's chain. -/
theorem c3_chain_snapshot (compileUrl : String → String → Option Params)
    (s : Server) (method : String) (opts : RouteOptions)
    (handlers useArgs : List Arg) (s1 : Server) (r : Route) (s2 : Server)
    (h1 : s._addRoute compileUrl method opts handlers = .ok (s1, r))
    (h2 : s1.use useArgs = .ok s2) :
    r.chain = s.chain ++ argFlattenList handlers ∧
    s2.routes.map Route.chain = s1.routes.map Route.chain ∧
    s2.chain = s1.chain ++ argFlattenList useArgs := by
  simp only [Server._addRoute, argsToChain_eq_ok, bind, Except.bind, pure,
    Except.pure, Except.ok.injEq, Prod.mk.injEq] at h1
  obtain ⟨hs1, hr⟩ := h1
  simp only [Server.use, argsToChain_eq_ok, bind, Except.bind, pure,
    Except.pure, Except.ok.injEq] at h2
  by_cases hne : argFlattenList useArgs = []
  · rw [hne] at h2
    simp only [ne_eq, not_true_eq_false, if_false, ite_false] at h2
    obtain rfl : s1 = s2 := Except.ok.inj h2
    refine ⟨?_, rfl, by simp [hne]⟩
    rw [← hr]
  · rw [if_pos (by simpa using hne)] at h2
    obtain rfl := Except.ok.inj h2
    refine ⟨?_, ?_, rfl⟩
    · rw [← hr]
    · simp [Route.use]

/-- C3 witness: registering `GET /x` with handler 1 on a fresh server and
then calling `use` with handler 2: the route's chain is the registration
snapshot (just handler 1) and stays so after the `use` call, while the
server's global chain becomes `[handler 2]`. -/
theorem c3_chain_snapshot_witness :
    ∃ s1 r s2,
      (mkServer [])._addRoute cuLit "GET" ⟨"/x", none, none⟩
        [.leaf (.func 1)] = .ok (s1, r) ∧
      s1.use [.leaf (.func 2)] = .ok s2 ∧
      r.chain = (mkServer []).chain ++ argFlattenList [.leaf (.func 1)] ∧
      s2.routes.map Route.chain = s1.routes.map Route.chain ∧
      s2.chain = s1.chain ++ argFlattenList [.leaf (.func 2)] := by
  refine ⟨_, _, _, rfl, rfl, ?_⟩
  exact c3_chain_snapshot cuLit (mkServer []) "GET" ⟨"/x", none, none⟩
    [.leaf (.func 1)] [.leaf (.func 2)] _ _ _ rfl rfl

/-- C4: whenever some pre-chain handler signals an error, `_request` sends
that error as the response and performs no routing: the resulting request
state is exactly the pre-chain output (so no path parameters are bound by
the dispatcher) and no route's handler chain is run. -/
theorem c4_prechain_error_short_circuit (interp : PreInterp) (s : Server)
    (req : Req) (res : Res) (req1 : Req) (res1 : Res) (e : JSVal)
    (h : runSeries interp s.preChain req res = (req1, res1, some e)) :
    s._request interp req res =
      { server := s, req := req1, res := res1.send (.err (.handler e)),
        ranRoute := none } ∧
    (s._request interp req res).ranRoute = none ∧
    (s._request interp req res).res.sent = some (.err (.handler e)) ∧
    (s._request interp req res).req = req1 := by
  have hmain : s._request interp req res =
      { server := s, req := req1, res := res1.send (.err (.handler e)),
        ranRoute := none } := by
    unfold Server._request
    rw [h]
  exact ⟨hmain, by rw [hmain], by rw [hmain]; rfl, by rw [hmain]⟩

/-- C4 witness: a server whose pre-chain holds one erroring handler; the
dispatch sends the handler's error, runs no route and leaves the request
untouched. -/
theorem c4_prechain_error_short_circuit_witness :
    runSeries wPreErr sPreErr.preChain reqGetX res0 =
      (reqGetX, res0, some (JSVal.str "boom")) ∧
    (sPreErr._request wPreErr reqGetX res0).ranRoute = none ∧
    (sPreErr._request wPreErr reqGetX res0).res.sent =
      some (.err (.handler (.str "boom"))) ∧
    (sPreErr._request wPreErr reqGetX res0).req = reqGetX := by
  have h := c4_prechain_error_short_circuit wPreErr sPreErr reqGetX res0
    reqGetX res0 (.str "boom") rfl
  exact ⟨rfl, h.2.1, h.2.2.1, h.2.2.2⟩

/-- C5: with `GET /x` and `POST /x` registered, a `DELETE /x` request takes
the method-mismatch outcome and the allowed-method set is exactly
`{GET, POST}`, deduplicated, for either scan order of the two routes. -/
theorem c5_method_aggregation :
    (((mkServer [routeGetX, routePostX]).findRoute reqDelX res0).emitted =
      some (Outcome.methodNotAllowed ["GET", "POST"], true)) ∧
    (((mkServer [routePostX, routeGetX]).findRoute reqDelX res0).emitted =
      some (Outcome.methodNotAllowed ["POST", "GET"], true)) ∧
    (["GET", "POST"] : List String).Nodup ∧
    (["POST", "GET"] : List String).Nodup ∧
    (["GET", "POST"] : List String).toFinset = {"GET", "POST"} ∧
    (["POST", "GET"] : List String).toFinset = {"GET", "POST"} := by
  refine ⟨rfl, rfl, by decide, by decide, by decide, by decide⟩

theorem lookup_setHeaderList (k v : String) :
    ∀ hs : List (String × String), (setHeaderList hs k v).lookup k = some v := by
  intro hs
  induction hs with
  | nil => simp [setHeaderList, List.lookup]
  | cons p rest ih =>
    rcases p with ⟨k', v'⟩
    by_cases h : k' = k
    · subst h
      simp [setHeaderList, List.lookup]
    · have hb : (k' == k) = false := beq_eq_false_iff_ne.mpr h
      have hb2 : (k == k') = false := beq_eq_false_iff_ne.mpr (Ne.symm h)
      simp [setHeaderList, hb, hb2, List.lookup, ih]

/-- C6: the default method-mismatch responder always sets the `Allow`
header to the comma-joined accumulated method list; an OPTIONS request
then receives a bare 200 status, and any other request receives a
BadMethodError (the 405-equivalent) on the same response. -/
theorem c6_default405_behaviour (req : Req) (res : Res) (methods : List String) :
    (default405Handler req res methods).headerOf "Allow" =
      some (String.intercalate ", " methods) ∧
    (req.method = "OPTIONS" →
      (default405Handler req res methods).sent = some (.status 200)) ∧
    (req.method ≠ "OPTIONS" →
      (default405Handler req res methods).sent =
        some (.err (.badMethod (req.url ++ " does not support " ++ req.method)))) := by
  by_cases hm : req.method = "OPTIONS"
  · have hb : (req.method == "OPTIONS") = true := by simpa using hm
    refine ⟨?_, fun _ => ?_, fun hne => absurd hm hne⟩
    · simp [default405Handler, hb, Res.headerOf, Res.send, Res.setHeader,
        lookup_setHeaderList]
    · simp [default405Handler, hb, Res.send, Res.setHeader]
  · have hb : (req.method == "OPTIONS") = false := beq_eq_false_iff_ne.mpr hm
    refine ⟨?_, fun he => absurd he hm, fun _ => ?_⟩
    · simp [default405Handler, hb, Res.headerOf, Res.send, Res.setHeader,
        lookup_setHeaderList]
    · simp [default405Handler, hb, Res.send, Res.setHeader]

/-- C6 witness: with accumulated methods `[GET, POST]`, an `OPTIONS /x`
request gets status 200 and `Allow: GET, POST`, while a `DELETE /x`
request gets the BadMethodError. -/
theorem c6_default405_behaviour_witness :
    (default405Handler reqOptionsX res0 ["GET", "POST"]).sent =
      some (.status 200) ∧
    (default405Handler reqOptionsX res0 ["GET", "POST"]).headerOf "Allow" =
      some "GET, POST" ∧
    (default405Handler reqDelX res0 ["GET", "POST"]).sent =
      some (.err (.badMethod "/x does not support DELETE")) := by
  have h1 := c6_default405_behaviour reqOptionsX res0 ["GET", "POST"]
  have h2 := c6_default405_behaviour reqDelX res0 ["GET", "POST"]
  exact ⟨h1.2.1 rfl, by rw [h1.1]; decide, h2.2.2 (by decide)⟩

theorem rmNamed_eq_none_of_countP_zero (n : String) :
    ∀ rs : List Route, rs.countP (fun r => r.name == n) = 0 →
      rmNamed n rs = none := by
  intro rs
  induction rs with
  | nil => intro _; rfl
  | cons r rest ih =>
    intro h
    rw [List.countP_cons] at h
    have hb : (r.name == n) = false := by
      cases hcase : (r.name == n) with
      | false => rfl
      | true => simp [hcase] at h
    have hrest : rest.countP (fun r => r.name == n) = 0 := by
      rw [hb] at h
      simpa using h
    simp [rmNamed, hb, ih hrest]

theorem rmNamed_twice_aux (n : String) :
    ∀ rs : List Route, rs.countP (fun r => r.name == n) = 1 →
      ∃ rs', rmNamed n rs = some rs' ∧
        rs' = rs.eraseP (fun r => r.name == n) ∧
        rmNamed n rs' = none := by
  intro rs
  induction rs with
  | nil => intro h; simp [List.countP_nil] at h
  | cons r rest ih =>
    intro h
    rw [List.countP_cons] at h
    by_cases hb : (r.name == n) = true
    · have hrest : rest.countP (fun r => r.name == n) = 0 := by
        rw [hb] at h; simpa using h
      refine ⟨rest, ?_, ?_, rmNamed_eq_none_of_countP_zero n rest hrest⟩
      · simp [rmNamed, hb]
      · exact (@List.eraseP_cons_of_pos Route r rest (fun r => r.name == n) hb).symm
    · have hbf : (r.name == n) = false := by
        revert hb; cases r.name == n <;> simp
      have hrest : rest.countP (fun r => r.name == n) = 1 := by
        rw [hbf] at h; simpa using h
      obtain ⟨rs', hsome, herase, hnone⟩ := ih hrest
      refine ⟨r :: rs', ?_, ?_, ?_⟩
      · simp [rmNamed, hbf, hsome]
      · rw [herase]
        exact (@List.eraseP_cons_of_neg Route r rest (fun r => r.name == n)
          (by simp [hbf])).symm
      · simp [rmNamed, hbf, hnone]

/-- C7: on a server whose table holds exactly one route with a given name,
removing by that name succeeds and deletes the first (unique) matching
entry, and removing by the same name again fails: `rm` returns true then
false. -/
theorem c7_remove_by_name_twice (s : Server) (n : String)
    (h : s.routes.countP (fun r => r.name == n) = 1) :
    (s.rm n).1 = true ∧
    (s.rm n).2.routes = s.routes.eraseP (fun r => r.name == n) ∧
    ((s.rm n).2.rm n).1 = false := by
  obtain ⟨rs', hsome, herase, hnone⟩ := rmNamed_twice_aux n s.routes h
  have h1 : s.rm n = (true, { s with routes := rs' }) := by
    simp [Server.rm, hsome]
  refine ⟨by rw [h1], by rw [h1]; exact herase, ?_⟩
  rw [h1]
  simp [Server.rm, hnone]

/-- C7 witness: a server holding exactly the route named `getx`: removal by
that name returns true, then false. -/
theorem c7_remove_by_name_twice_witness :
    (((mkServer [routeGetX]).routes.countP (fun r => r.name == "getx")) = 1) ∧
    ((mkServer [routeGetX]).rm "getx").1 = true ∧
    (((mkServer [routeGetX]).rm "getx").2.rm "getx").1 = false := by
  have h := c7_remove_by_name_twice (mkServer [routeGetX]) "getx" (by rfl)
  exact ⟨by rfl, h.1, h.2.2⟩

/-- C8: route resolution is side-effect-free with respect to the server
(and hence its ordered route table): `_findRoute` returns the server state
unchanged, mutating only the per-request context; path parameters are
bound into the request exactly when a full match succeeds, and to the
winning route's extracted parameters. -/
theorem c8_resolution_pure (s : Server) (req : Req) (res : Res) :
    (s.findRoute req res).server = s ∧
    ((s.findRoute req res).route = none → (s.findRoute req res).req = req) ∧
    (∀ r, (s.findRoute req res).route = some r →
      (s.findRoute req res).req = { req with params := some (matchedParams req r) }) := by
  have h1 := scanRoutes_fst req s.routes [] []
  rcases hscan : scanRoutes req s.routes [] [] with ⟨o, ms, vs⟩
  rw [hscan] at h1
  dsimp only at h1
  rcases o with _ | ⟨r0, params⟩
  · refine ⟨?_, fun _ => ?_, fun r hr => ?_⟩
    · simp only [Server.findRoute, hscan]
      split_ifs <;> rfl
    · simp only [Server.findRoute, hscan]
      split_ifs <;> rfl
    · exfalso
      simp only [Server.findRoute, hscan] at hr
      split_ifs at hr
  · have hparams : params = matchedParams req r0 := by
      rcases hf : s.routes.find? (routeFullMatch req) with _ | r1
      · rw [hf] at h1; simp at h1
      · rw [hf] at h1
        simp only [Option.map_some', Option.some.injEq] at h1
        obtain ⟨hr, hp⟩ := Prod.mk.inj h1
        rw [hp, hr]
    refine ⟨?_, fun hnone => ?_, fun r hr => ?_⟩
    · simp only [Server.findRoute, hscan]
    · exfalso
      simp only [Server.findRoute, hscan] at hnone
      simp at hnone
    · simp only [Server.findRoute, hscan] at hr ⊢
      simp only [Option.some.injEq] at hr
      rw [← hr, ← hparams]

/-- C8 witness: a `GET /x` request resolves against the `GET /x` route; the
server state is unchanged and the request's params are bound to the match's
extracted (empty) parameter list. -/
theorem c8_resolution_pure_witness :
    ((mkServer [routeGetX]).findRoute reqGetX res0).server = mkServer [routeGetX] ∧
    ((mkServer [routeGetX]).findRoute reqGetX res0).req =
      { reqGetX with params := some (matchedParams reqGetX routeGetX) } := by
  have h := c8_resolution_pure (mkServer [routeGetX]) reqGetX res0
  exact ⟨h.1, h.2.2 routeGetX rfl⟩

theorem contains_iff_mem_str (l : List String) (a : String) :
    l.contains a = true ↔ a ∈ l := by
  rw [List.contains_iff_exists_mem_beq]
  constructor
  · rintro ⟨a', h, hbeq⟩
    rwa [show a = a' from by simpa using hbeq]
  · intro h
    exact ⟨a, h, by simp⟩

theorem acceptableList_eq_append_tail (b : List String) :
    ∀ fk : List String, acceptableList fk b = fk ++ specFallbackTail fk b := by
  induction b with
  | nil => intro fk; simp [acceptableList, specFallbackTail]
  | cons a rest ih =>
    intro fk
    have step : acceptableList fk (a :: rest) =
        acceptableList (if fk.contains a then fk else fk ++ [a]) rest := by
      simp [acceptableList]
    by_cases h : fk.contains a
    · rw [step, if_pos h, ih fk]
      simp only [specFallbackTail, if_pos h]
    · rw [step, if_neg h, ih (fk ++ [a])]
      simp only [specFallbackTail, if_neg h]
      simp [List.append_assoc]

theorem acceptableList_nodup (b : List String) :
    ∀ fk : List String, fk.Nodup → (acceptableList fk b).Nodup := by
  induction b with
  | nil => intro fk h; simpa [acceptableList] using h
  | cons a rest ih =>
    intro fk h
    have step : acceptableList fk (a :: rest) =
        acceptableList (if fk.contains a then fk else fk ++ [a]) rest := by
      simp [acceptableList]
    by_cases hc : fk.contains a
    · rw [step, if_pos hc]
      exact ih fk h
    · rw [step, if_neg hc]
      refine ih (fk ++ [a]) ?_
      have ha : a ∉ fk := fun hm => hc ((contains_iff_mem_str _ _).mpr hm)
      simp [List.nodup_append, h, ha]

theorem specFallbackTail_mem (x : String) (b : List String) :
    ∀ present : List String,
      (x ∈ specFallbackTail present b ↔ x ∈ b ∧ x ∉ present) := by
  induction b with
  | nil => intro present; simp [specFallbackTail]
  | cons a rest ih =>
    intro present
    by_cases hc : present.contains a
    · have ha : a ∈ present := (contains_iff_mem_str _ _).mp hc
      simp only [specFallbackTail, if_pos hc, ih present, List.mem_cons]
      constructor
      · exact fun ⟨hr, hn⟩ => ⟨Or.inr hr, hn⟩
      · rintro ⟨ha' | hr, hn⟩
        · exact absurd (ha' ▸ ha) hn
        · exact ⟨hr, hn⟩
    · have ha : a ∉ present := fun hm => hc ((contains_iff_mem_str _ _).mpr hm)
      simp only [specFallbackTail, if_neg hc, List.mem_cons, ih (present ++ [a]),
        List.mem_append, List.mem_singleton]
      constructor
      · rintro (rfl | ⟨hr, hn⟩)
        · exact ⟨Or.inl rfl, ha⟩
        · exact ⟨Or.inr hr, fun hm => hn (Or.inl hm)⟩
      · rintro ⟨rfl | hr, hn⟩
        · exact Or.inl rfl
        · by_cases hxa : x = a
          · exact Or.inl hxa
          · exact Or.inr ⟨hr, by simp [hn, hxa]⟩

/-- C9: the `acceptable` list is the formatter keys first, in their own
order, followed by exactly the built-in fallback types not already present
(first occurrences, in order), and it contains no duplicates when the
formatter keys are distinct (as `Object.keys` guarantees). -/
theorem c9_acceptable_list (fk b : List String) (h : fk.Nodup) :
    acceptableList fk b = fk ++ specFallbackTail fk b ∧
    (acceptableList fk b).Nodup ∧
    (∀ x, x ∈ acceptableList fk b ↔ x ∈ fk ∨ (x ∈ b ∧ x ∉ fk)) := by
  refine ⟨acceptableList_eq_append_tail b fk, acceptableList_nodup b fk h, ?_⟩
  intro x
  rw [acceptableList_eq_append_tail b fk, List.mem_append,
    specFallbackTail_mem x b fk]

/-- C9 witness: one registered formatter key `application/json` and
built-ins `[application/json, text/plain]`: the acceptable list is
`[application/json, text/plain]`, duplicate-free. -/
theorem c9_acceptable_list_witness :
    acceptableList ["application/json"] ["application/json", "text/plain"] =
      ["application/json"] ++
        specFallbackTail ["application/json"] ["application/json", "text/plain"] ∧
    (acceptableList ["application/json"] ["application/json", "text/plain"]).Nodup ∧
    acceptableList ["application/json"] ["application/json", "text/plain"] =
      ["application/json", "text/plain"] := by
  have h := c9_acceptable_list ["application/json"]
    ["application/json", "text/plain"] (by simp)
  exact ⟨h.1, h.2.1, by decide⟩

/-- C10: for every argument list passed to the chain builder, including
lists holding non-function values, `argsToChain` never raises: its
`!typeof(h) === 'function'` guard compares a boolean against a string and
so is vacuously false, and the call returns the flattening of the
arguments, every non-array element appended in order. -/
theorem c10_argsToChain_never_rejects (args : List Arg) :
    argsToChain args = .ok (argFlattenList args) :=
  argsToChain_eq_ok args

end Restify
